import Mathlib

/-!
# Verification of the Kiln push-with-review Mercurial extension

A shallow embedding of `review.py` (the `kiln-review` extension, which wraps
`hg push` to create a code review on a Kiln server), together with proofs of
the behavioural properties claimed by its specification.

The embedding models:
* `_get_reviewers`    — reviewer-token normalization, substring candidate
  matching against the person directory, ambiguity resolution via a chooser,
  and deduplication of accepted persons keyed by email;
* `_get_repo_to_push_to` — case-insensitive path-alias resolution with the
  `default-push` / `default` fallback;
* `_get_repo_index_for_repo_url` — reconstruction of each repository's
  canonical URL from the project hierarchy and the case-insensitive first
  match lookup (including the Python dynamic-type failure when the URL is
  `None`);
* `push_with_review`  — the orchestrator, modelled as a pure function from an
  environment (outcomes of all external calls) to a trace of remote/push
  events, a list of console messages, and an exit status or error.

Remote calls, the underlying push, and the interactive disambiguation prompt
are parameters of the environment; all control flow, ordering, string
manipulation and error propagation are taken directly from the source.
-/

set_option autoImplicit false

namespace KilnReview

/-- A Kiln person record, as returned by the `Person` API call.
Fields mirror the JSON fields `sName`, `sEmail`, `ixPerson`. -/
structure Person where
  sName : String
  sEmail : String
  ixPerson : Nat
deriving DecidableEq, Repr, Inhabited

/-- A repository entry of the project hierarchy (`Project` API call), with the
slug components used to reconstruct its canonical URL, and its index. -/
structure KilnRepo where
  sProjectSlug : String
  sGroupSlug : String
  sSlug : String
  ixRepo : Nat
deriving DecidableEq, Repr, Inhabited

/-- A repository group inside a project. -/
structure RepoGroup where
  repos : List KilnRepo
deriving DecidableEq, Repr, Inhabited

/-- A project of the hierarchy returned by the `Project` API call. -/
structure Project where
  repoGroups : List RepoGroup
deriving DecidableEq, Repr, Inhabited

/-! ## Python `in` on strings: substring containment -/

/-- `occursIn n h`: the character list `n` occurs contiguously inside `h`.
This is Python's `n in h` on strings. -/
def occursIn (n : List Char) : List Char → Bool
  | [] => n.isEmpty
  | c :: t => n.isPrefixOf (c :: t) || occursIn n t

/-- Python's `needle in hay` for strings. -/
def strIn (needle hay : String) : Bool :=
  occursIn needle.data hay.data

/-! ## Python string primitives, as character-list functions -/

/-- Python `str.lower()`, character by character (ASCII in this code base). -/
def lowerStr (s : String) : String :=
  ⟨s.data.map Char.toLower⟩

/-- Python `str.strip()`: remove leading and trailing whitespace. -/
def trimStr (s : String) : String :=
  ⟨((s.data.dropWhile Char.isWhitespace).reverse.dropWhile
      Char.isWhitespace).reverse⟩

/-- Worker for `splitComma`: `cur` holds the characters of the current piece
in reverse. -/
def splitCommaAux : List Char → List Char → List String
  | [], cur => [⟨cur.reverse⟩]
  | c :: rest, cur =>
    if c = ',' then ⟨cur.reverse⟩ :: splitCommaAux rest []
    else splitCommaAux rest (c :: cur)

/-- Python `s.split(',')`: split at every comma, keeping empty pieces. -/
def splitComma (s : String) : List String :=
  splitCommaAux s.data []

/-! ## Reviewer resolution (`_get_reviewers`) -/

/-- The normalized set of reviewer sub-tokens: each entry of the `--rr` list
is split on commas, each piece stripped and lower-cased, and the result
deduplicated (the source collects them into a Python `set`). -/
def normalizeTokens (reviewers : List String) : List String :=
  (reviewers.flatMap
    (fun entry => (splitComma entry).map (fun s => lowerStr (trimStr s)))).dedup

/-- The candidate person records for a normalized reviewer token: every person
whose lower-cased name or lower-cased email contains the token as a
substring (`reviewer in person["sName"].lower() or ...`). -/
def candidateReviewers (reviewer : String) (all_people : List Person) :
    List Person :=
  all_people.filter
    (fun p =>
      strIn reviewer (lowerStr p.sName) || strIn reviewer (lowerStr p.sEmail))

/-- Insert into an association list keyed by `String`, replacing the value if
the key is present (Python dict assignment `d[k] = v`). -/
def upsert {α : Type} (k : String) (v : α) :
    List (String × α) → List (String × α)
  | [] => [(k, v)]
  | (k', v') :: rest =>
    if k' = k then (k, v) :: rest else (k', v') :: upsert k v rest

/-- The per-token loop of `_get_reviewers`: for each normalized token find the
candidates, fail with `Abort` if there are none, consult the chooser if there
are several (`ui.promptchoice`), and accumulate the picked person in a dict
keyed by email. -/
def resolveLoop (chooser : String → List Person → Nat)
    (all_people : List Person) :
    List String → List (String × Person) →
    Except String (List (String × Person))
  | [], acc => .ok acc
  | r :: rest, acc =>
    match candidateReviewers r all_people with
    | [] => .error ("No reviewer found matching \"" ++ r ++ "\"")
    | [p] => resolveLoop chooser all_people rest (upsert p.sEmail p acc)
    | p :: p' :: ps =>
      let cands := p :: p' :: ps
      let picked := cands.getD (chooser r cands) p
      resolveLoop chooser all_people rest (upsert picked.sEmail picked acc)

/-- `_get_reviewers`: resolve a list of raw reviewer entries to the list of
person records (the dict's values).  The interactive disambiguation prompt
is abstracted as `chooser`; `ui.promptchoice` always returns an index into
the candidate list. -/
def _get_reviewers (chooser : String → List Person → Nat)
    (all_people : List Person) (reviewers : List String) :
    Except String (List Person) :=
  (resolveLoop chooser all_people (normalizeTokens reviewers) []).map
    (fun d => d.map Prod.snd)

/-! ## Destination resolution (`_get_repo_to_push_to`) -/

/-- Lookup in the dict built by `dict((x.lower(), y.lower()) for ...)`:
when the same key occurs several times, the later entry wins. -/
def dictGet (items : List (String × String)) (k : String) : Option String :=
  ((items.filter (fun kv => kv.1 = k)).getLast?).map Prod.snd

/-- The configured path aliases with keys and values lower-cased, as built by
`dict((x.lower(), y.lower()) for (x,y) in repo.ui.configitems('paths'))`. -/
def loweredItems (pathItems : List (String × String)) :
    List (String × String) :=
  pathItems.map (fun xy => (lowerStr xy.1, lowerStr xy.2))

/-- The `default-push` / `default` fallback of `_get_repo_to_push_to`. -/
def defaultLookup (repos : List (String × String)) : Option String :=
  match dictGet repos "default-push" with
  | some u => some u
  | none => dictGet repos "default"

/-- `_get_repo_to_push_to`: all configured path aliases are lower-cased (keys
and values); an explicit truthy destination is looked up case-insensitively
(with no fallback on a miss), otherwise `default-push` then `default` is
used; `None` if nothing applies.  A `preferred` of `Some ""` is falsy in
Python (`if preferred_repo:`) and behaves like no argument. -/
def _get_repo_to_push_to (pathItems : List (String × String))
    (preferred : Option String) : Option String :=
  match preferred with
  | some p =>
    if p = "" then defaultLookup (loweredItems pathItems)
    else dictGet (loweredItems pathItems) (lowerStr p)
  | none => defaultLookup (loweredItems pathItems)

/-! ## Repository-index lookup (`_get_repo_index_for_repo_url`) -/

/-- An error surfaced by the embedded code: a `mercurial.util.Abort` raised
deliberately, an unhandled Python `AttributeError` (calling a string method
on `None`), or an unhandled Python `AssertionError` (a failed `assert`). -/
inductive PyErr where
  | abort (msg : String)
  | attrError (msg : String)
  | assertError (msg : String)
deriving DecidableEq, Repr

/-- The repositories of the project hierarchy, in traversal order of the
three nested loops of `_get_repo_index_for_repo_url`. -/
def flattenRepos (projects : List Project) : List KilnRepo :=
  projects.flatMap (fun pr => pr.repoGroups.flatMap (fun g => g.repos))

/-- The canonical URL `'%s/code/%s/%s/%s'` reconstructed from the configured
URL prefix and the repository's slug components. -/
def canonicalUrl (urlPref : String) (r : KilnRepo) : String :=
  urlPref ++ "/code/" ++ r.sProjectSlug ++ "/" ++ r.sGroupSlug ++ "/" ++ r.sSlug

/-- The message of the unhandled `AttributeError` raised by
`repo_url.lower()` when `repo_url` is `None`. -/
def noneLowerMsg : String := "NoneType object has no attribute lower"

/-- `_get_repo_index_for_repo_url`: walk the hierarchy and return the
`ixRepo` of the first repository whose reconstructed canonical URL equals the
target case-insensitively; `Abort` when nothing matches.  The target is an
`Option` because the orchestrator passes `_get_repo_to_push_to`'s result in
unguarded: when it is `None`, the first comparison evaluates `None.lower()`
and raises `AttributeError` — unless the hierarchy holds no repository at
all, in which case the loop body never runs and the `Abort` (with `None`
formatted into the message) is reached. -/
def _get_repo_index_for_repo_url (urlPref : String) (projects : List Project)
    (repo_url : Option String) : Except PyErr Nat :=
  match repo_url with
  | none =>
    match flattenRepos projects with
    | [] => .error (.abort "No repository found matching None")
    | _ :: _ => .error (.attrError noneLowerMsg)
  | some u =>
    match (flattenRepos projects).find?
        (fun r => lowerStr (canonicalUrl urlPref r) = lowerStr u) with
    | some r => .ok r.ixRepo
    | none => .error (.abort ("No repository found matching " ++ u))

/-! ## Changeset selection -/

/-- The inline changeset selection of `push_with_review` (`-rrev` handling):
explicit revision specs are expanded by the version-control system
(`revrange`, external) and each hash truncated to 12 characters; otherwise
the outgoing changesets are used, `Abort`ing when there are none. -/
def selectChangesets (revrange : List String → List String)
    (outgoing : List String) (rrev : List String) : Except PyErr (List String) :=
  if rrev ≠ [] then
    .ok ((revrange rrev).map (fun h => h.take 12))
  else if outgoing = [] then
    .error (.abort ("No changesets found to push/review. Use" ++
      " --rrev to specify changesets manually."))
  else
    .ok (outgoing.map (fun h => h.take 12))

/-! ## The orchestrator (`push_with_review`) -/

/-- The parameters accumulated in `review_params` and sent to
`Review/Create`. -/
structure ReviewParams where
  token : String
  sTitle : Option String
  sDescription : Option String
  revs : List String
  ixReviewers : List Nat
  ixRepo : Nat
deriving DecidableEq, Repr

/-- The review-related options added to `hg push` by `uisetup` (plus the
`editor` key that the line `opts.pop('editor', None)` reads; `hg push`
defines no such option, so it is absent — `none` — in real invocations,
while the declared `--reditor` flag is never read back). -/
structure Opts where
  rr : List String
  rrev : List String
  rtitle : String
  rcomment : String
  reditor : Bool
  editor : Option String
deriving DecidableEq, Repr

/-- An observable action of a run: a remote Kiln call, the internal
outgoing-changesets query, or the underlying `hg push`. -/
inductive Event where
  | authLogin
  | fetchPersons
  | fetchProjects
  | outgoing
  | push (args : List String) (opts : Opts)
  | reviewCreate (params : ReviewParams)
deriving DecidableEq, Repr

/-- The body of the `Review/Create` JSON response: whether it carries an
`ixReview` field, its raw text (used in the `FAILED:` message), and whether
the parsed value is truthy in Python (`null`, `{}`, `[]`, `""` and `0` are
falsy; a dict that carries `ixReview` is necessarily truthy).  The source
runs `assert review_status` on the parsed value before looking for
`ixReview`. -/
structure ReviewResp where
  ixReview : Option Nat
  raw : String
  truthy : Bool
deriving DecidableEq, Repr

/-- Outcomes of every external interaction of one run, making the
orchestrator a pure function.  `Except String` outcomes model remote calls
that may raise `Abort` (`_slurp`'s handling of `URLError`), and the
underlying push's own failure. -/
structure Env where
  urlPref : Option String
  pathItems : List (String × String)
  authResult : Except String String
  people : Except String (List Person)
  projects : Except String (List Project)
  outgoing : List String
  revrange : List String → List String
  descOf : String → String
  edit : String → String
  chooser : String → List Person → Nat
  pushResult : Except String Nat
  reviewCall : Except String ReviewResp

/-- The outcome of one run: the events performed, the console messages
printed, and the exit status (or the propagated error). -/
structure RunResult where
  trace : List Event
  msgs : List String
  result : Except PyErr Nat
deriving Repr

/-- Lift the underlying push's outcome: its return value is passed through,
its exception is a `mercurial` abort. -/
def pushOutcome : Except String Nat → Except PyErr Nat
  | .ok c => .ok c
  | .error e => .error (.abort e)

/-- The options dict as the underlying push sees it on the review path: all
five review keys have been `pop`ped off before `origfn` runs. -/
def poppedOpts : Opts :=
  { rr := [], rrev := [], rtitle := "", rcomment := "", reditor := false,
    editor := none }

/-- The `ui.warn` lines printed when `kiln.prefix` is not configured. -/
def configWarning : List String :=
  ["In order to work, in your hgrc please set:\n\n",
   "[auth]\n",
   "kiln.prefix = https://<kilnrepo.kilnhg.com>\n",
   "kiln.username = <username>@<domain>.com\n",
   "kiln.password = <password>\n"]

/-- The events of the changeset-selection step: the outgoing query runs
exactly when no explicit revisions were given. -/
def selEvents (rrev : List String) : List Event :=
  if rrev = [] then [.outgoing] else []

/-- The `-rtitle` step: a truthy title is recorded, an empty one is not. -/
def titleOpt (opts : Opts) : Option String :=
  if opts.rtitle ≠ "" then some opts.rtitle else none

/-- The `-rcomment` step: a truthy comment is recorded, an empty one is
not. -/
def commentOpt (opts : Opts) : Option String :=
  if opts.rcomment ≠ "" then some opts.rcomment else none

/-- The `sDescription` value after the editor step: with a truthy `editor`
opt the edited text (seeded with `-rcomment`'s text, or else the joined
changeset descriptions) replaces the comment; otherwise the comment stands. -/
def descAfterEditor (env : Env) (opts : Opts) (changesets : List String)
    (sDesc : Option String) : Option String :=
  match opts.editor with
  | some e =>
    if e = "" then sDesc
    else
      some (env.edit (match sDesc with
        | some d => d
        | none => String.intercalate "\n" (changesets.map env.descOf)))
  | none => sDesc

/-- The tail of the review path once every review parameter is gathered:
push, then the `Review/Create` call.  The parsed response first goes through
`assert review_status, 'Kiln API is returning None??'`: a falsy value (such
as `null` or `{}`) raises an unhandled `AssertionError`.  Only then is
`ixReview` looked for: a (truthy) response without it is reported as
`FAILED` with exit status `0`, one with it prints the review URL and
exits `1`. -/
def pushAndReview (env : Env) (upref : String) (args : List String)
    (pre : List Event) (params : ReviewParams) : RunResult :=
  match env.pushResult with
  | .error e => ⟨pre ++ [.push args poppedOpts], [], .error (.abort e)⟩
  | .ok _ =>
    match env.reviewCall with
    | .error e =>
      ⟨pre ++ [.push args poppedOpts, .reviewCreate params],
       ["Creating review..."], .error (.abort e)⟩
    | .ok resp =>
      if resp.truthy then
        match resp.ixReview with
        | none =>
          ⟨pre ++ [.push args poppedOpts, .reviewCreate params],
           ["Creating review...", "FAILED: " ++ resp.raw ++ "\n"], .ok 0⟩
        | some ix =>
          ⟨pre ++ [.push args poppedOpts, .reviewCreate params],
           ["Creating review...", "done!\n",
            upref ++ "/Review/" ++ toString ix ++ "\n"], .ok 1⟩
      else
        ⟨pre ++ [.push args poppedOpts, .reviewCreate params],
         ["Creating review..."],
         .error (.assertError "Kiln API is returning None??")⟩

/-- `push_with_review`, the wrapped `hg push`.  Follows the source line by
line: the `--rr none` bypass, the `kiln.prefix` check, the single-destination
check, authentication, title and comment, changeset selection, the reviewer
requirement and resolution, the editor step, destination and repository-index
resolution, the push, and finally the review creation. -/
def pushWithReview (env : Env) (args : List String) (opts : Opts) : RunResult :=
  if opts.rr = ["none"] then
    ⟨[.push args opts], [], pushOutcome env.pushResult⟩
  else
    match env.urlPref with
    | none => ⟨[], configWarning, .ok 0⟩
    | some upref =>
      if args.length > 1 then
        ⟨[], [], .error (.abort "At most one dest should be specified.")⟩
      else
        match env.authResult with
        | .error e => ⟨[.authLogin], [], .error (.abort e)⟩
        | .ok token =>
          match selectChangesets env.revrange env.outgoing opts.rrev with
          | .error e => ⟨[.authLogin] ++ selEvents opts.rrev, [], .error e⟩
          | .ok changesets =>
            if opts.rr = [] then
              ⟨[.authLogin] ++ selEvents opts.rrev, [],
               .error (.abort ("Must specify at least one reviewer via -rr." ++
                 "  Pass \"-rr none\" to bypass review."))⟩
            else
              match env.people with
              | .error e =>
                ⟨[.authLogin] ++ selEvents opts.rrev ++ [.fetchPersons], [],
                 .error (.abort e)⟩
              | .ok ppl =>
                match _get_reviewers env.chooser ppl opts.rr with
                | .error e =>
                  ⟨[.authLogin] ++ selEvents opts.rrev ++ [.fetchPersons], [],
                   .error (.abort e)⟩
                | .ok reviewers =>
                  match env.projects with
                  | .error e =>
                    ⟨[.authLogin] ++ selEvents opts.rrev ++
                       [.fetchPersons, .fetchProjects], [], .error (.abort e)⟩
                  | .ok projs =>
                    match _get_repo_index_for_repo_url upref projs
                        (_get_repo_to_push_to env.pathItems args.head?) with
                    | .error e =>
                      ⟨[.authLogin] ++ selEvents opts.rrev ++
                         [.fetchPersons, .fetchProjects], [], .error e⟩
                    | .ok ixRepo =>
                      pushAndReview env upref args
                        ([.authLogin] ++ selEvents opts.rrev ++
                          [.fetchPersons, .fetchProjects])
                        ⟨token, titleOpt opts,
                         descAfterEditor env opts changesets (commentOpt opts),
                         changesets, reviewers.map Person.ixPerson, ixRepo⟩

/-! ## Trace predicates -/

/-- Every `reviewCreate` event is preceded (strictly earlier in the trace) by
some `push` event; the flag records whether a push has been seen so far. -/
def reviewPrecededByPush : Bool → List Event → Bool
  | _, [] => true
  | _, .push _ _ :: rest => reviewPrecededByPush true rest
  | seen, .reviewCreate _ :: rest => seen && reviewPrecededByPush seen rest
  | seen, _ :: rest => reviewPrecededByPush seen rest

/-- All preconditions of the push on the review path: the bypass was not
taken, `kiln.prefix` is configured, at most one destination was given,
authentication, changeset selection, reviewer resolution and repository-index
lookup all succeeded, and at least one reviewer was named. -/
def MainPathOk (env : Env) (args : List String) (opts : Opts) : Prop :=
  opts.rr ≠ ["none"] ∧ args.length ≤ 1 ∧ opts.rr ≠ [] ∧
  (∃ t, env.authResult = .ok t) ∧
  (∃ cs, selectChangesets env.revrange env.outgoing opts.rrev = .ok cs) ∧
  (∃ ppl, env.people = .ok ppl ∧
    ∃ rs, _get_reviewers env.chooser ppl opts.rr = .ok rs) ∧
  (∃ u, env.urlPref = some u ∧ ∃ projs, env.projects = .ok projs ∧
    ∃ ix, _get_repo_index_for_repo_url u projs
      (_get_repo_to_push_to env.pathItems args.head?) = .ok ix)

/-! ## Concrete fixtures (used by witnesses and counterexamples) -/

/-- Directory entry used in examples ("Tom A"). -/
def tomA : Person := ⟨"Tom A", "tom@x.com", 1⟩

/-- Directory entry used in examples ("Dick B"). -/
def dickB : Person := ⟨"Dick B", "dick@x.com", 2⟩

/-- Directory entry used in examples ("Harry C"). -/
def harryC : Person := ⟨"Harry C", "harry@x.com", 3⟩

/-- The three-person directory of the specification's example. -/
def peopleABC : List Person := [tomA, dickB, harryC]

/-- A repository entry whose canonical URL under `http://kiln` is
`http://kiln/code/proj/grp/slug`. -/
def repo1 : KilnRepo := ⟨"proj", "grp", "slug", 7⟩

/-- A one-repository project hierarchy. -/
def projects1 : List Project := [⟨[⟨[repo1]⟩]⟩]

/-- An environment in which every external call succeeds and the `default`
path alias points at `repo1`'s canonical URL. -/
def baseEnv : Env where
  urlPref := some "http://kiln"
  pathItems := [("default", "http://kiln/code/proj/grp/slug")]
  authResult := .ok "tok"
  people := .ok peopleABC
  projects := .ok projects1
  outgoing := ["abcdef0123456789"]
  revrange := fun _ => []
  descOf := fun _ => ""
  edit := fun s => s
  chooser := fun _ _ => 0
  pushResult := .ok 0
  reviewCall := .ok ⟨some 42, "resp", true⟩

/-- Options asking for the single reviewer `tom`. -/
def optsTom : Opts := ⟨["tom"], [], "", "", false, none⟩

/-- Options using the bypass sentinel. -/
def optsNone : Opts := ⟨["none"], [], "", "", false, none⟩

/-! ## The substring check agrees with list-infix containment -/

/-- `occursIn` decides exactly contiguous-substring containment. -/
lemma occursIn_iff (n h : List Char) : occursIn n h = true ↔ n <:+: h := by
  induction h with
  | nil =>
    simp only [occursIn, List.isEmpty_iff, List.infix_nil]
  | cons c t ih =>
    simp only [occursIn, Bool.or_eq_true, List.isPrefixOf_iff_prefix, ih,
      List.infix_cons_iff]

/-- Python's `needle in hay` decides substring containment of the character
sequences. -/
lemma strIn_iff (needle hay : String) :
    strIn needle hay = true ↔ needle.data <:+: hay.data :=
  occursIn_iff needle.data hay.data

/-- C3: for every reviewer token and person record of the directory, the
person is a candidate for the token exactly when the token's characters occur
contiguously (substring containment) in the lower-cased name or in the
lower-cased email. -/
theorem candidate_iff_substring (t : String) (people : List Person)
    (p : Person) :
    p ∈ candidateReviewers t people ↔
      p ∈ people ∧
        (t.data <:+: (lowerStr p.sName).data ∨
         t.data <:+: (lowerStr p.sEmail).data) := by
  simp only [candidateReviewers, List.mem_filter, Bool.or_eq_true, strIn_iff]

/-- C3 witness: `tom` is a candidate token for the record `Tom A`. -/
theorem candidate_iff_substring_witness :
    tomA ∈ candidateReviewers "tom" peopleABC :=
  (candidate_iff_substring "tom" peopleABC tomA).mpr
    ⟨by decide, Or.inl (by decide)⟩

/-! ## Dict-style accumulation -/

/-- Inserting a fresh key grows the dict by one entry. -/
lemma upsert_length_of_not_mem {α : Type} (k : String) (v : α)
    (acc : List (String × α)) (h : k ∉ acc.map Prod.fst) :
    (upsert k v acc).length = acc.length + 1 := by
  induction acc with
  | nil => rfl
  | cons kv rest ih =>
    simp only [List.map_cons, List.mem_cons, not_or] at h
    have hne : ¬ kv.1 = k := fun hh => h.1 hh.symm
    simp only [upsert, if_neg hne, List.length_cons, ih h.2]

/-- The keys after an insertion are the inserted key and the old keys. -/
lemma mem_keys_upsert {α : Type} (k a : String) (v : α)
    (acc : List (String × α)) :
    a ∈ (upsert k v acc).map Prod.fst ↔ a = k ∨ a ∈ acc.map Prod.fst := by
  induction acc with
  | nil => simp [upsert]
  | cons kv rest ih =>
    by_cases hk : kv.1 = k
    · subst hk
      simp [upsert]
    · simp only [upsert, if_neg hk, List.map_cons, List.mem_cons, ih]
      tauto

/-- The resolution loop under the no-ambiguity hypothesis: when every pending
token has exactly one candidate, whose emails are fresh for the accumulator
and pairwise distinct, the loop succeeds and adds one dict entry per
token. -/
lemma resolveLoop_ok_length (chooser : String → List Person → Nat)
    (people : List Person) :
    ∀ (ts : List String) (acc : List (String × Person)),
      (∀ t ∈ ts, ∃ p, candidateReviewers t people = [p]) →
      (∀ t ∈ ts, ∀ p, candidateReviewers t people = [p] →
        p.sEmail ∉ acc.map Prod.fst) →
      ts.Pairwise (fun t₁ t₂ => ∀ p₁ p₂, candidateReviewers t₁ people = [p₁] →
        candidateReviewers t₂ people = [p₂] → p₁.sEmail ≠ p₂.sEmail) →
      ∃ acc', resolveLoop chooser people ts acc = .ok acc' ∧
        acc'.length = acc.length + ts.length
  | [], acc, _, _, _ => ⟨acc, rfl, rfl⟩
  | t :: ts, acc, huniq, hfresh, hpair => by
    obtain ⟨p, hp⟩ := huniq t (List.mem_cons_self t ts)
    have hpacc : p.sEmail ∉ acc.map Prod.fst :=
      hfresh t (List.mem_cons_self t ts) p hp
    rw [List.pairwise_cons] at hpair
    obtain ⟨acc', hok, hlen⟩ :=
      resolveLoop_ok_length chooser people ts (upsert p.sEmail p acc)
        (fun t' ht' => huniq t' (List.mem_cons_of_mem t ht'))
        (fun t' ht' p' hp' => by
          rw [mem_keys_upsert]
          push_neg
          exact ⟨(hpair.1 t' ht' p p' hp hp').symm,
            hfresh t' (List.mem_cons_of_mem t ht') p' hp'⟩)
        hpair.2
    refine ⟨acc', ?_, ?_⟩
    · simp only [resolveLoop, hp, hok]
    · rw [hlen, upsert_length_of_not_mem p.sEmail p acc hpacc,
        List.length_cons]
      omega

/-- C2 counterexample: with the directory `[Tom A (tom@x.com)]` and the
reviewer tokens `tom` and `om`, each normalized sub-token matches exactly one
person, yet resolution returns a single record — the two tokens collapse onto
the same person — so the size claimed by the specification (2) is not
attained. -/
theorem resolve_size_cex :
    (∀ t ∈ normalizeTokens ["tom", "om"],
      (candidateReviewers t [tomA]).length = 1) ∧
    _get_reviewers (fun _ _ => 0) [tomA] ["tom", "om"] = .ok [tomA] ∧
    (normalizeTokens ["tom", "om"]).length = 2 := by
  refine ⟨by decide, by rfl, by rfl⟩

/-- C2 (amended): reviewer resolution returns one record per distinct
normalized sub-token, given a directory in which every sub-token matches
exactly one person — provided additionally that distinct sub-tokens match
persons with distinct emails (the source deduplicates accepted persons by
email, so two tokens resolving to the same person collapse into a single
entry). -/
theorem resolve_size_eq_token_count (chooser : String → List Person → Nat)
    (people : List Person) (reviewers : List String)
    (huniq : ∀ t ∈ normalizeTokens reviewers,
      (candidateReviewers t people).length = 1)
    (hinj : ∀ t₁ ∈ normalizeTokens reviewers,
      ∀ t₂ ∈ normalizeTokens reviewers, t₁ ≠ t₂ →
      ∀ p₁ ∈ candidateReviewers t₁ people,
      ∀ p₂ ∈ candidateReviewers t₂ people, p₁.sEmail ≠ p₂.sEmail) :
    ∃ ps, _get_reviewers chooser people reviewers = .ok ps ∧
      ps.length = (normalizeTokens reviewers).length := by
  have huniq' : ∀ t ∈ normalizeTokens reviewers,
      ∃ p, candidateReviewers t people = [p] :=
    fun t ht => List.length_eq_one.mp (huniq t ht)
  have hnodup : (normalizeTokens reviewers).Nodup := List.nodup_dedup _
  have hpair : (normalizeTokens reviewers).Pairwise
      (fun t₁ t₂ => ∀ p₁ p₂, candidateReviewers t₁ people = [p₁] →
        candidateReviewers t₂ people = [p₂] → p₁.sEmail ≠ p₂.sEmail) :=
    List.Pairwise.imp_of_mem
      (fun ha hb hne p₁ p₂ h₁ h₂ =>
        hinj _ ha _ hb hne p₁ (by simp [h₁]) p₂ (by simp [h₂])) hnodup
  obtain ⟨acc', hok, hlen⟩ :=
    resolveLoop_ok_length chooser people (normalizeTokens reviewers) []
      huniq' (by simp) hpair
  refine ⟨acc'.map Prod.snd, ?_, ?_⟩
  · simp only [_get_reviewers, hok, Except.map]
  · simpa using hlen

/-- C2 witness: on the specification's own example — tokens
`["tom", "dick,harry"]` against the three-person directory — resolution
succeeds with exactly three records. -/
theorem resolve_size_eq_token_count_witness :
    ∃ ps, _get_reviewers (fun _ _ => 0) peopleABC ["tom", "dick,harry"] =
      .ok ps ∧ ps.length = (normalizeTokens ["tom", "dick,harry"]).length :=
  resolve_size_eq_token_count (fun _ _ => 0) peopleABC ["tom", "dick,harry"]
    (by decide) (by decide)

/-! ## Run analysis of the orchestrator -/

/-- Membership in the changeset-selection events. -/
@[simp] lemma mem_selEvents (e : Event) (rrev : List String) :
    e ∈ selEvents rrev ↔ rrev = [] ∧ e = .outgoing := by
  unfold selEvents
  split <;> simp_all

/-- Shape of the trace after the push step: the prefix, the push, and
possibly the review-creation call. -/
lemma pushAndReview_trace (env : Env) (upref : String) (args : List String)
    (pre : List Event) (params : ReviewParams) :
    (pushAndReview env upref args pre params).trace =
      pre ++ [.push args poppedOpts] ∨
    (pushAndReview env upref args pre params).trace =
      pre ++ [.push args poppedOpts, .reviewCreate params] := by
  cases hp : env.pushResult with
  | error e => exact Or.inl (by simp [pushAndReview, hp])
  | ok c =>
    cases hc : env.reviewCall with
    | error e => exact Or.inr (by simp [pushAndReview, hp, hc])
    | ok resp =>
      by_cases ht : resp.truthy
      · cases hix : resp.ixReview with
        | none => exact Or.inr (by simp [pushAndReview, hp, hc, ht, hix])
        | some ix => exact Or.inr (by simp [pushAndReview, hp, hc, ht, hix])
      · exact Or.inr (by simp [pushAndReview, hp, hc, ht])

/-- A review-creation event after the push carries exactly the gathered
parameters, and entails that the push call itself returned. -/
lemma pushAndReview_reviewCreate (env : Env) (upref : String)
    (args : List String) (pre : List Event) (params p : ReviewParams)
    (hpre : ∀ q, Event.reviewCreate q ∉ pre)
    (h : Event.reviewCreate p ∈ (pushAndReview env upref args pre params).trace) :
    p = params ∧ ∃ c, env.pushResult = .ok c := by
  cases hp : env.pushResult with
  | error e =>
    simp only [pushAndReview, hp, List.mem_append, List.mem_cons,
      List.not_mem_nil, or_false, reduceCtorEq] at h
    exact absurd h (hpre p)
  | ok c =>
    refine ⟨?_, c, rfl⟩
    cases hc : env.reviewCall with
    | error e =>
      simp only [pushAndReview, hp, hc, List.mem_append, List.mem_cons,
        List.not_mem_nil, or_false, reduceCtorEq, false_or,
        Event.reviewCreate.injEq] at h
      rcases h with h | h
      · exact absurd h (hpre p)
      · exact h
    | ok resp =>
      by_cases ht : resp.truthy
      · cases hix : resp.ixReview with
        | none =>
          simp only [pushAndReview, hp, hc, ht, hix, if_true, List.mem_append,
            List.mem_cons, List.not_mem_nil, or_false, reduceCtorEq, false_or,
            Event.reviewCreate.injEq] at h
          rcases h with h | h
          · exact absurd h (hpre p)
          · exact h
        | some ix =>
          simp only [pushAndReview, hp, hc, ht, hix, if_true, List.mem_append,
            List.mem_cons, List.not_mem_nil, or_false, reduceCtorEq, false_or,
            Event.reviewCreate.injEq] at h
          rcases h with h | h
          · exact absurd h (hpre p)
          · exact h
      · simp only [pushAndReview, hp, hc, ht, if_false, Bool.false_eq_true,
          List.mem_append, List.mem_cons, List.not_mem_nil, or_false,
          reduceCtorEq, false_or, Event.reviewCreate.injEq] at h
        rcases h with h | h
        · exact absurd h (hpre p)
        · exact h

/-- A failed review creation (truthy response without `ixReview`) exits 0
and reports the raw response. -/
lemma pushAndReview_result_failed (env : Env) (upref : String)
    (args : List String) (pre : List Event) (params : ReviewParams)
    (c : Nat) (resp : ReviewResp) (hp : env.pushResult = .ok c)
    (hc : env.reviewCall = .ok resp) (ht : resp.truthy = true)
    (hix : resp.ixReview = none) :
    (pushAndReview env upref args pre params).result = .ok 0 ∧
    ("FAILED: " ++ resp.raw ++ "\n") ∈
      (pushAndReview env upref args pre params).msgs := by
  simp [pushAndReview, hp, hc, ht, hix]

/-- A created review (truthy response with `ixReview`) exits 1. -/
lemma pushAndReview_result_created (env : Env) (upref : String)
    (args : List String) (pre : List Event) (params : ReviewParams)
    (c : Nat) (resp : ReviewResp) (ix : Nat) (hp : env.pushResult = .ok c)
    (hc : env.reviewCall = .ok resp) (ht : resp.truthy = true)
    (hix : resp.ixReview = some ix) :
    (pushAndReview env upref args pre params).result = .ok 1 := by
  simp [pushAndReview, hp, hc, ht, hix]

/-- A falsy response fails the `assert review_status` check: the run dies
with the unhandled `AssertionError` and no `FAILED:` message is printed. -/
lemma pushAndReview_result_assert (env : Env) (upref : String)
    (args : List String) (pre : List Event) (params : ReviewParams)
    (c : Nat) (resp : ReviewResp) (hp : env.pushResult = .ok c)
    (hc : env.reviewCall = .ok resp) (ht : resp.truthy = false) :
    (pushAndReview env upref args pre params).result =
      .error (.assertError "Kiln API is returning None??") ∧
    (pushAndReview env upref args pre params).msgs =
      ["Creating review..."] := by
  simp [pushAndReview, hp, hc, ht]

/-- Every run is the bypass, one of the pre-push failure shapes, or the full
review path with all of its gathered parameters. -/
lemma run_cases (env : Env) (args : List String) (opts : Opts) :
    (opts.rr = ["none"] ∧ pushWithReview env args opts =
      ⟨[.push args opts], [], pushOutcome env.pushResult⟩) ∨
    pushWithReview env args opts = ⟨[], configWarning, .ok 0⟩ ∨
    pushWithReview env args opts =
      ⟨[], [], .error (.abort "At most one dest should be specified.")⟩ ∨
    (∃ e, pushWithReview env args opts =
      ⟨[.authLogin], [], .error (.abort e)⟩) ∨
    (∃ e, pushWithReview env args opts =
      ⟨[.authLogin] ++ selEvents opts.rrev, [], .error e⟩) ∨
    (∃ e, pushWithReview env args opts =
      ⟨[.authLogin] ++ selEvents opts.rrev ++ [.fetchPersons], [],
       .error (.abort e)⟩) ∨
    (∃ e, pushWithReview env args opts =
      ⟨[.authLogin] ++ selEvents opts.rrev ++ [.fetchPersons, .fetchProjects],
       [], .error e⟩) ∨
    (opts.rr ≠ ["none"] ∧ args.length ≤ 1 ∧ opts.rr ≠ [] ∧
      ∃ u, env.urlPref = some u ∧ ∃ t, env.authResult = .ok t ∧
      ∃ cs, selectChangesets env.revrange env.outgoing opts.rrev = .ok cs ∧
      ∃ ppl, env.people = .ok ppl ∧
      ∃ rs, _get_reviewers env.chooser ppl opts.rr = .ok rs ∧
      ∃ projs, env.projects = .ok projs ∧
      ∃ ix, _get_repo_index_for_repo_url u projs
        (_get_repo_to_push_to env.pathItems args.head?) = .ok ix ∧
      pushWithReview env args opts =
        pushAndReview env u args
          ([.authLogin] ++ selEvents opts.rrev ++
            [.fetchPersons, .fetchProjects])
          ⟨t, titleOpt opts, descAfterEditor env opts cs (commentOpt opts),
           cs, rs.map Person.ixPerson, ix⟩) := by
  by_cases hrr : opts.rr = ["none"]
  · exact Or.inl ⟨hrr, by simp [pushWithReview, hrr]⟩
  cases hu : env.urlPref with
  | none => exact Or.inr (Or.inl (by simp [pushWithReview, hrr, hu]))
  | some u =>
    by_cases hlen : args.length > 1
    · exact Or.inr (Or.inr (Or.inl (by simp [pushWithReview, hrr, hu, hlen])))
    cases hauth : env.authResult with
    | error e =>
      exact Or.inr (Or.inr (Or.inr (Or.inl
        ⟨e, by simp [pushWithReview, hrr, hu, hlen, hauth]⟩)))
    | ok t =>
      cases hsel : selectChangesets env.revrange env.outgoing opts.rrev with
      | error e =>
        exact Or.inr (Or.inr (Or.inr (Or.inr (Or.inl
          ⟨e, by simp [pushWithReview, hrr, hu, hlen, hauth, hsel]⟩))))
      | ok cs =>
        by_cases hrr0 : opts.rr = []
        · exact Or.inr (Or.inr (Or.inr (Or.inr (Or.inl
            ⟨.abort ("Must specify at least one reviewer via -rr." ++
              "  Pass \"-rr none\" to bypass review."),
             by simp [pushWithReview, hrr, hu, hlen, hauth, hsel, hrr0]⟩))))
        cases hppl : env.people with
        | error e =>
          exact Or.inr (Or.inr (Or.inr (Or.inr (Or.inr (Or.inl
            ⟨e, by simp [pushWithReview, hrr, hu, hlen, hauth, hsel, hrr0,
              hppl]⟩)))))
        | ok ppl =>
          cases hres : _get_reviewers env.chooser ppl opts.rr with
          | error e =>
            exact Or.inr (Or.inr (Or.inr (Or.inr (Or.inr (Or.inl
              ⟨e, by simp [pushWithReview, hrr, hu, hlen, hauth, hsel, hrr0,
                hppl, hres]⟩)))))
          | ok rs =>
            cases hproj : env.projects with
            | error e =>
              exact Or.inr (Or.inr (Or.inr (Or.inr (Or.inr (Or.inr (Or.inl
                ⟨.abort e, by simp [pushWithReview, hrr, hu, hlen, hauth,
                  hsel, hrr0, hppl, hres, hproj]⟩))))))
            | ok projs =>
              cases hlook : _get_repo_index_for_repo_url u projs
                  (_get_repo_to_push_to env.pathItems args.head?) with
              | error e =>
                exact Or.inr (Or.inr (Or.inr (Or.inr (Or.inr (Or.inr (Or.inl
                  ⟨e, by simp [pushWithReview, hrr, hu, hlen, hauth, hsel,
                    hrr0, hppl, hres, hproj, hlook]⟩))))))
              | ok ix =>
                refine Or.inr (Or.inr (Or.inr (Or.inr (Or.inr (Or.inr
                  (Or.inr ⟨hrr, by omega, hrr0, u, rfl, t, rfl, cs, rfl,
                    ppl, rfl, rs, hres, projs, rfl, ix, hlook, ?_⟩))))))
                simp [pushWithReview, hrr, hu, hlen, hauth, hsel, hrr0,
                  hppl, hres, hproj, hlook]

/-- A trace without review-creation events satisfies the ordering check. -/
lemma rpbp_of_no_reviewCreate (tr : List Event) :
    ∀ (b : Bool), (∀ p, Event.reviewCreate p ∉ tr) →
      reviewPrecededByPush b tr = true := by
  induction tr with
  | nil => intro b _; rfl
  | cons e tr ih =>
    intro b h
    have h' : ∀ p, Event.reviewCreate p ∉ tr :=
      fun p hp => h p (List.mem_cons_of_mem _ hp)
    cases e with
    | authLogin => simpa [reviewPrecededByPush] using ih b h'
    | fetchPersons => simpa [reviewPrecededByPush] using ih b h'
    | fetchProjects => simpa [reviewPrecededByPush] using ih b h'
    | outgoing => simpa [reviewPrecededByPush] using ih b h'
    | push a o => simpa [reviewPrecededByPush] using ih true h'
    | reviewCreate p => exact absurd (List.mem_cons_self _ _) (h p)

/-- Dropping a review-free, push-free prefix leaves the ordering check
unchanged. -/
lemma rpbp_append (xs ys : List Event) (b : Bool)
    (hp : ∀ a o, Event.push a o ∉ xs)
    (hr : ∀ p, Event.reviewCreate p ∉ xs) :
    reviewPrecededByPush b (xs ++ ys) = reviewPrecededByPush b ys := by
  induction xs with
  | nil => rfl
  | cons e xs ih =>
    have hp' : ∀ a o, Event.push a o ∉ xs :=
      fun a o hm => hp a o (List.mem_cons_of_mem _ hm)
    have hr' : ∀ p, Event.reviewCreate p ∉ xs :=
      fun p hm => hr p (List.mem_cons_of_mem _ hm)
    cases e with
    | authLogin => simpa [reviewPrecededByPush] using ih hp' hr'
    | fetchPersons => simpa [reviewPrecededByPush] using ih hp' hr'
    | fetchProjects => simpa [reviewPrecededByPush] using ih hp' hr'
    | outgoing => simpa [reviewPrecededByPush] using ih hp' hr'
    | push a o => exact absurd (List.mem_cons_self _ _) (hp a o)
    | reviewCreate p => exact absurd (List.mem_cons_self _ _) (hr p)

/-- C1 (amended): (i) every review-creation event in a run's trace is
strictly preceded by a push event; (ii) on the review path a push event
entails that authentication, changeset selection, reviewer resolution and
repository-id lookup had all succeeded — contrapositively, a failure in any
of them aborts before any push; (iii)–(viii) each such failure propagates as
the run's error; (ix) a *truthy* review-creation response lacking `ixReview`
is non-fatal: exit status 0, the raw response echoed in a `FAILED:` message,
and the completed push still in the trace; (x) a *falsy* response (`null`,
`{}`) instead fails the `assert review_status` check and the run dies with
an unhandled `AssertionError` — no `FAILED:` warning, no exit 0 — though
even then the completed push is not undone. -/
theorem push_review_ordering (env : Env) (args : List String) (opts : Opts) :
    reviewPrecededByPush false (pushWithReview env args opts).trace = true ∧
    (opts.rr ≠ ["none"] →
      (∃ a o, Event.push a o ∈ (pushWithReview env args opts).trace) →
      MainPathOk env args opts) ∧
    (∀ u e, opts.rr ≠ ["none"] → env.urlPref = some u → args.length ≤ 1 →
      env.authResult = .error e →
      (pushWithReview env args opts).result = .error (.abort e)) ∧
    (∀ u t e, opts.rr ≠ ["none"] → env.urlPref = some u → args.length ≤ 1 →
      env.authResult = .ok t →
      selectChangesets env.revrange env.outgoing opts.rrev = .error e →
      (pushWithReview env args opts).result = .error e) ∧
    (∀ u t cs e, opts.rr ≠ ["none"] → env.urlPref = some u →
      args.length ≤ 1 → env.authResult = .ok t →
      selectChangesets env.revrange env.outgoing opts.rrev = .ok cs →
      opts.rr ≠ [] → env.people = .error e →
      (pushWithReview env args opts).result = .error (.abort e)) ∧
    (∀ u t cs ppl e, opts.rr ≠ ["none"] → env.urlPref = some u →
      args.length ≤ 1 → env.authResult = .ok t →
      selectChangesets env.revrange env.outgoing opts.rrev = .ok cs →
      opts.rr ≠ [] → env.people = .ok ppl →
      _get_reviewers env.chooser ppl opts.rr = .error e →
      (pushWithReview env args opts).result = .error (.abort e)) ∧
    (∀ u t cs ppl rs e, opts.rr ≠ ["none"] → env.urlPref = some u →
      args.length ≤ 1 → env.authResult = .ok t →
      selectChangesets env.revrange env.outgoing opts.rrev = .ok cs →
      opts.rr ≠ [] → env.people = .ok ppl →
      _get_reviewers env.chooser ppl opts.rr = .ok rs →
      env.projects = .error e →
      (pushWithReview env args opts).result = .error (.abort e)) ∧
    (∀ u t cs ppl rs projs e, opts.rr ≠ ["none"] → env.urlPref = some u →
      args.length ≤ 1 → env.authResult = .ok t →
      selectChangesets env.revrange env.outgoing opts.rrev = .ok cs →
      opts.rr ≠ [] → env.people = .ok ppl →
      _get_reviewers env.chooser ppl opts.rr = .ok rs →
      env.projects = .ok projs →
      _get_repo_index_for_repo_url u projs
        (_get_repo_to_push_to env.pathItems args.head?) = .error e →
      (pushWithReview env args opts).result = .error e) ∧
    (∀ p resp, Event.reviewCreate p ∈ (pushWithReview env args opts).trace →
      env.reviewCall = .ok resp → resp.truthy = true → resp.ixReview = none →
      (pushWithReview env args opts).result = .ok 0 ∧
      ("FAILED: " ++ resp.raw ++ "\n") ∈ (pushWithReview env args opts).msgs ∧
      ∃ a o, Event.push a o ∈ (pushWithReview env args opts).trace) ∧
    (∀ p resp, Event.reviewCreate p ∈ (pushWithReview env args opts).trace →
      env.reviewCall = .ok resp → resp.truthy = false →
      (pushWithReview env args opts).result =
        .error (.assertError "Kiln API is returning None??") ∧
      ∃ a o, Event.push a o ∈ (pushWithReview env args opts).trace) := by
  refine ⟨?_, ?_, ?_, ?_, ?_, ?_, ?_, ?_, ?_, ?_⟩
  · -- (i) ordering
    rcases run_cases env args opts with ⟨_, hR⟩ | hR | hR | ⟨e, hR⟩ |
      ⟨e, hR⟩ | ⟨e, hR⟩ | ⟨e, hR⟩ |
      ⟨_, _, _, u, hu, t, hauth, cs, hsel, ppl, hppl, rs, hres, projs,
        hproj, ix, hlook, hR⟩ <;> rw [hR]
    · simp [reviewPrecededByPush]
    · rfl
    · rfl
    · rfl
    · exact rpbp_of_no_reviewCreate _ false (fun p => by simp)
    · exact rpbp_of_no_reviewCreate _ false (fun p => by simp)
    · exact rpbp_of_no_reviewCreate _ false (fun p => by simp)
    · rcases pushAndReview_trace env u args
          ([.authLogin] ++ selEvents opts.rrev ++
            [.fetchPersons, .fetchProjects]) _ with htr | htr <;> rw [htr] <;>
        rw [rpbp_append _ _ _ (fun a o => by simp) (fun p => by simp)] <;>
        simp [reviewPrecededByPush]
  · -- (ii) a push event entails the review-path preconditions
    intro hrr ⟨a, o, hmem⟩
    rcases run_cases env args opts with ⟨hrr', _⟩ | hR | hR | ⟨e, hR⟩ |
      ⟨e, hR⟩ | ⟨e, hR⟩ | ⟨e, hR⟩ |
      ⟨h1, h2, h3, u, hu, t, hauth, cs, hsel, ppl, hppl, rs, hres, projs,
        hproj, ix, hlook, hR⟩
    · exact absurd hrr' hrr
    · rw [hR] at hmem; simp at hmem
    · rw [hR] at hmem; simp at hmem
    · rw [hR] at hmem; simp at hmem
    · rw [hR] at hmem; simp at hmem
    · rw [hR] at hmem; simp at hmem
    · rw [hR] at hmem; simp at hmem
    · exact ⟨h1, h2, h3, ⟨t, hauth⟩, ⟨cs, hsel⟩, ⟨ppl, hppl, rs, hres⟩,
        ⟨u, hu, projs, hproj, ix, hlook⟩⟩
  · -- (iii) authentication failure aborts
    intro u e h1 h2 h3 h4
    simp [pushWithReview, h1, h2, h4, show ¬ args.length > 1 by omega]
  · -- (iv) changeset-selection failure aborts
    intro u t e h1 h2 h3 h4 h5
    simp [pushWithReview, h1, h2, h4, h5, show ¬ args.length > 1 by omega]
  · -- (v) person-directory failure aborts
    intro u t cs e h1 h2 h3 h4 h5 h6 h7
    simp [pushWithReview, h1, h2, h4, h5, h6, h7,
      show ¬ args.length > 1 by omega]
  · -- (vi) reviewer-resolution failure aborts
    intro u t cs ppl e h1 h2 h3 h4 h5 h6 h7 h8
    simp [pushWithReview, h1, h2, h4, h5, h6, h7, h8,
      show ¬ args.length > 1 by omega]
  · -- (vii) hierarchy-fetch failure aborts
    intro u t cs ppl rs e h1 h2 h3 h4 h5 h6 h7 h8 h9
    simp [pushWithReview, h1, h2, h4, h5, h6, h7, h8, h9,
      show ¬ args.length > 1 by omega]
  · -- (viii) repository-id lookup failure aborts
    intro u t cs ppl rs projs e h1 h2 h3 h4 h5 h6 h7 h8 h9 h10
    simp [pushWithReview, h1, h2, h4, h5, h6, h7, h8, h9, h10,
      show ¬ args.length > 1 by omega]
  · -- (ix) review-creation failure on a truthy response is non-fatal and
    -- keeps the push
    intro p resp hmem hcall ht hix
    rcases run_cases env args opts with ⟨_, hR⟩ | hR | hR | ⟨e, hR⟩ |
      ⟨e, hR⟩ | ⟨e, hR⟩ | ⟨e, hR⟩ |
      ⟨h1, h2, h3, u, hu, t, hauth, cs, hsel, ppl, hppl, rs, hres, projs,
        hproj, ix, hlook, hR⟩
    · rw [hR] at hmem; simp at hmem
    · rw [hR] at hmem; simp at hmem
    · rw [hR] at hmem; simp at hmem
    · rw [hR] at hmem; simp at hmem
    · rw [hR] at hmem; simp at hmem
    · rw [hR] at hmem; simp at hmem
    · rw [hR] at hmem; simp at hmem
    · rw [hR] at hmem
      obtain ⟨-, c, hc⟩ := pushAndReview_reviewCreate env u args _ _ p
        (fun q => by simp) hmem
      obtain ⟨hres0, hmsg⟩ := pushAndReview_result_failed env u args _ _
        c resp hc hcall ht hix
      refine ⟨by rw [hR]; exact hres0, by rw [hR]; exact hmsg, args,
        poppedOpts, ?_⟩
      rw [hR]
      rcases pushAndReview_trace env u args
          ([.authLogin] ++ selEvents opts.rrev ++
            [.fetchPersons, .fetchProjects]) _ with htr | htr <;>
        rw [htr] <;> simp
  · -- (x) a falsy response dies on the assert, with the push completed
    intro p resp hmem hcall ht
    rcases run_cases env args opts with ⟨_, hR⟩ | hR | hR | ⟨e, hR⟩ |
      ⟨e, hR⟩ | ⟨e, hR⟩ | ⟨e, hR⟩ |
      ⟨h1, h2, h3, u, hu, t, hauth, cs, hsel, ppl, hppl, rs, hres, projs,
        hproj, ix, hlook, hR⟩
    · rw [hR] at hmem; simp at hmem
    · rw [hR] at hmem; simp at hmem
    · rw [hR] at hmem; simp at hmem
    · rw [hR] at hmem; simp at hmem
    · rw [hR] at hmem; simp at hmem
    · rw [hR] at hmem; simp at hmem
    · rw [hR] at hmem; simp at hmem
    · rw [hR] at hmem
      obtain ⟨-, c, hc⟩ := pushAndReview_reviewCreate env u args _ _ p
        (fun q => by simp) hmem
      obtain ⟨hres0, -⟩ := pushAndReview_result_assert env u args
        ([.authLogin] ++ selEvents opts.rrev ++
          [.fetchPersons, .fetchProjects]) _ c resp hc hcall ht
      refine ⟨by rw [hR]; exact hres0, args, poppedOpts, ?_⟩
      rw [hR]
      rcases pushAndReview_trace env u args
          ([.authLogin] ++ selEvents opts.rrev ++
            [.fetchPersons, .fetchProjects]) _ with htr | htr <;>
        rw [htr] <;> simp

/-- C1 witness: with authentication failing the run aborts with that error;
with the review call returning a truthy body without `ixReview` after a
successful push, the run exits 0. -/
theorem push_review_ordering_witness :
    (pushWithReview { baseEnv with authResult := .error "kiln down" }
      [] optsTom).result = .error (.abort "kiln down") ∧
    (pushWithReview { baseEnv with reviewCall := .ok ⟨none, "oops", true⟩ }
      [] optsTom).result = .ok 0 := by
  constructor
  · exact (push_review_ordering
      { baseEnv with authResult := .error "kiln down" } [] optsTom).2.2.1
      "http://kiln" "kiln down" (by decide) rfl (by decide) rfl
  · exact ((push_review_ordering
      { baseEnv with reviewCall := .ok ⟨none, "oops", true⟩ } [] optsTom
      ).2.2.2.2.2.2.2.2.1 ⟨"tok", none, none, ["abcdef012345"], [1], 7⟩
      ⟨none, "oops", true⟩ (by decide) rfl rfl rfl).1

/-- C1 counterexample: the review call is made and its parsed response —
`null`, which lacks a review identifier — hits `assert review_status`: the
run dies with the unhandled `AssertionError` instead of the claimed visible
`FAILED:` warning with exit status 0 (the completed push does stay in the
trace). -/
theorem review_failure_crash_cex :
    (⟨none, "None", false⟩ : ReviewResp).ixReview = none ∧
    Event.reviewCreate ⟨"tok", none, none, ["abcdef012345"], [1], 7⟩ ∈
      (pushWithReview { baseEnv with reviewCall := .ok ⟨none, "None", false⟩ }
        [] optsTom).trace ∧
    (pushWithReview { baseEnv with reviewCall := .ok ⟨none, "None", false⟩ }
        [] optsTom).result =
      .error (.assertError "Kiln API is returning None??") ∧
    ¬ (pushWithReview { baseEnv with reviewCall := .ok ⟨none, "None", false⟩ }
        [] optsTom).result = .ok 0 ∧
    ("FAILED: " ++ "None" ++ "\n") ∉
      (pushWithReview { baseEnv with reviewCall := .ok ⟨none, "None", false⟩ }
        [] optsTom).msgs ∧
    Event.push [] poppedOpts ∈
      (pushWithReview { baseEnv with reviewCall := .ok ⟨none, "None", false⟩ }
        [] optsTom).trace := by
  refine ⟨rfl, by decide, rfl, ?_, by decide, by decide⟩
  rw [show (pushWithReview
    { baseEnv with reviewCall := .ok ⟨none, "None", false⟩ }
    [] optsTom).result =
    .error (.assertError "Kiln API is returning None??") from rfl]
  simp

/-- The resolution loop fails — naming the offending token — as soon as some
pending token has no candidates, whatever the accumulator. -/
lemma resolveLoop_error_of_unmatched (chooser : String → List Person → Nat)
    (people : List Person) :
    ∀ (ts : List String) (acc : List (String × Person)),
      (∃ t ∈ ts, candidateReviewers t people = []) →
      ∃ t ∈ ts, candidateReviewers t people = [] ∧
        resolveLoop chooser people ts acc =
          .error ("No reviewer found matching \"" ++ t ++ "\"")
  | [], _, h => absurd h (by simp)
  | t :: ts, acc, h => by
    cases hc : candidateReviewers t people with
    | nil =>
      refine ⟨t, List.mem_cons_self t ts, hc, ?_⟩
      simp [resolveLoop, hc]
    | cons p ps =>
      have h' : ∃ t' ∈ ts, candidateReviewers t' people = [] := by
        rcases h with ⟨t', ht', hct'⟩
        rcases List.mem_cons.mp ht' with rfl | hmem
        · rw [hc] at hct'; cases hct'
        · exact ⟨t', hmem, hct'⟩
      cases ps with
      | nil =>
        obtain ⟨t', ht', hct', hrest⟩ := resolveLoop_error_of_unmatched
          chooser people ts (upsert p.sEmail p acc) h'
        refine ⟨t', List.mem_cons_of_mem t ht', hct', ?_⟩
        simp only [resolveLoop, hc]
        exact hrest
      | cons q qs =>
        obtain ⟨t', ht', hct', hrest⟩ := resolveLoop_error_of_unmatched
          chooser people ts
          (upsert ((p :: q :: qs).getD (chooser t (p :: q :: qs)) p).sEmail
            ((p :: q :: qs).getD (chooser t (p :: q :: qs)) p) acc) h'
        refine ⟨t', List.mem_cons_of_mem t ht', hct', ?_⟩
        simp only [resolveLoop, hc]
        exact hrest

/-- C4: a normalized token with zero matching person records makes the whole
resolution fail with an `Abort` naming some such token (none is silently
dropped), and in any run whose directory and reviewer list have this defect
no review-creation call is ever issued. -/
theorem resolution_fails_on_unmatched (chooser : String → List Person → Nat)
    (people : List Person) (reviewers : List String)
    (h : ∃ t ∈ normalizeTokens reviewers, candidateReviewers t people = []) :
    (∃ t ∈ normalizeTokens reviewers, candidateReviewers t people = [] ∧
      _get_reviewers chooser people reviewers =
        .error ("No reviewer found matching \"" ++ t ++ "\"")) ∧
    ∀ (env : Env) (args : List String) (opts : Opts),
      env.people = .ok people → env.chooser = chooser →
      opts.rr = reviewers →
      ∀ p, Event.reviewCreate p ∉ (pushWithReview env args opts).trace := by
  obtain ⟨t, ht, hct, hloop⟩ := resolveLoop_error_of_unmatched chooser people
    (normalizeTokens reviewers) [] h
  have hgr : _get_reviewers chooser people reviewers =
      .error ("No reviewer found matching \"" ++ t ++ "\"") := by
    simp [_get_reviewers, hloop, Except.map]
  refine ⟨⟨t, ht, hct, hgr⟩, ?_⟩
  intro env args opts hppl hch hrr p hmem
  rcases run_cases env args opts with ⟨_, hR⟩ | hR | hR | ⟨e, hR⟩ |
    ⟨e, hR⟩ | ⟨e, hR⟩ | ⟨e, hR⟩ |
    ⟨_, _, _, u, hu, t', hauth, cs, hsel, ppl, hppl', rs, hres, projs,
      hproj, ix, hlook, hR⟩
  · rw [hR] at hmem; simp at hmem
  · rw [hR] at hmem; simp at hmem
  · rw [hR] at hmem; simp at hmem
  · rw [hR] at hmem; simp at hmem
  · rw [hR] at hmem; simp at hmem
  · rw [hR] at hmem; simp at hmem
  · rw [hR] at hmem; simp at hmem
  · rw [hppl] at hppl'
    obtain rfl : people = ppl := Except.ok.inj hppl'
    rw [hch, hrr, hgr] at hres
    cases hres

/-- C4 witness: the token `zed` matches nobody in the three-person
directory, and resolution aborts naming it. -/
theorem resolution_fails_on_unmatched_witness :
    ∃ t ∈ normalizeTokens ["zed"], candidateReviewers t peopleABC = [] ∧
      _get_reviewers (fun _ _ => 0) peopleABC ["zed"] =
        .error ("No reviewer found matching \"" ++ t ++ "\"") :=
  (resolution_fails_on_unmatched (fun _ _ => 0) peopleABC ["zed"]
    (by decide)).1

/-- C5: with the reviewer option exactly `["none"]` the run is precisely the
underlying push with the original arguments and options — the trace holds no
authentication, directory, or review-creation call — and its outcome is the
push's own outcome. -/
theorem bypass_is_bare_push (env : Env) (args : List String) (opts : Opts)
    (h : opts.rr = ["none"]) :
    pushWithReview env args opts =
      ⟨[.push args opts], [], pushOutcome env.pushResult⟩ := by
  simp [pushWithReview, h]

/-- C5 witness. -/
theorem bypass_is_bare_push_witness :
    pushWithReview baseEnv [] optsNone =
      ⟨[.push [] optsNone], [], pushOutcome baseEnv.pushResult⟩ :=
  bypass_is_bare_push baseEnv [] optsNone rfl

/-- C6: with no explicit revisions, an empty outgoing set aborts with the
"no changesets found" error and no review-creation call ever happens, while
a non-empty outgoing set selects exactly those changesets, each hash
truncated to 12 characters; any review actually created under no explicit
revisions carries exactly those short hashes, and never an empty list. -/
theorem changeset_selection (env : Env) :
    (env.outgoing = [] →
      selectChangesets env.revrange env.outgoing [] =
        .error (.abort ("No changesets found to push/review. Use" ++
          " --rrev to specify changesets manually."))) ∧
    (env.outgoing ≠ [] →
      selectChangesets env.revrange env.outgoing [] =
        .ok (env.outgoing.map (fun h => h.take 12))) ∧
    (∀ (args : List String) (opts : Opts), opts.rrev = [] →
      env.outgoing = [] →
      ∀ p, Event.reviewCreate p ∉ (pushWithReview env args opts).trace) ∧
    (∀ (args : List String) (opts : Opts) (p : ReviewParams),
      opts.rrev = [] →
      Event.reviewCreate p ∈ (pushWithReview env args opts).trace →
      p.revs = env.outgoing.map (fun h => h.take 12) ∧ p.revs ≠ []) := by
  refine ⟨?_, ?_, ?_, ?_⟩
  · intro h
    simp [selectChangesets, h]
  · intro h
    simp [selectChangesets, h]
  · intro args opts hrrev hout p hmem
    rcases run_cases env args opts with ⟨_, hR⟩ | hR | hR | ⟨e, hR⟩ |
      ⟨e, hR⟩ | ⟨e, hR⟩ | ⟨e, hR⟩ |
      ⟨_, _, _, u, hu, t, hauth, cs, hsel, ppl, hppl, rs, hres, projs,
        hproj, ix, hlook, hR⟩
    · rw [hR] at hmem; simp at hmem
    · rw [hR] at hmem; simp at hmem
    · rw [hR] at hmem; simp at hmem
    · rw [hR] at hmem; simp at hmem
    · rw [hR] at hmem; simp at hmem
    · rw [hR] at hmem; simp at hmem
    · rw [hR] at hmem; simp at hmem
    · rw [hrrev] at hsel
      simp [selectChangesets, hout] at hsel
  · intro args opts p hrrev hmem
    rcases run_cases env args opts with ⟨_, hR⟩ | hR | hR | ⟨e, hR⟩ |
      ⟨e, hR⟩ | ⟨e, hR⟩ | ⟨e, hR⟩ |
      ⟨_, _, _, u, hu, t, hauth, cs, hsel, ppl, hppl, rs, hres, projs,
        hproj, ix, hlook, hR⟩
    · rw [hR] at hmem; simp at hmem
    · rw [hR] at hmem; simp at hmem
    · rw [hR] at hmem; simp at hmem
    · rw [hR] at hmem; simp at hmem
    · rw [hR] at hmem; simp at hmem
    · rw [hR] at hmem; simp at hmem
    · rw [hR] at hmem; simp at hmem
    · rw [hR] at hmem
      obtain ⟨rfl, -⟩ := pushAndReview_reviewCreate env u args _ _ p
        (fun q => by simp) hmem
      rw [hrrev] at hsel
      cases hout : env.outgoing with
      | nil => rw [hout] at hsel; simp [selectChangesets] at hsel
      | cons hd tl =>
        rw [hout] at hsel
        simp only [selectChangesets, ne_eq, not_true_eq_false, if_false,
          reduceIte, List.map_cons] at hsel
        obtain rfl : cs = (hd :: tl).map (fun h => h.take 12) := by
          simpa using (Except.ok.inj hsel).symm
        simp

/-- C6 witness: empty outgoing set aborts; the non-empty one is selected and
short-hashed. -/
theorem changeset_selection_witness :
    selectChangesets (fun _ => []) ([] : List String) [] =
      .error (.abort ("No changesets found to push/review. Use" ++
        " --rrev to specify changesets manually.")) ∧
    selectChangesets baseEnv.revrange baseEnv.outgoing [] =
      .ok ["abcdef012345"] := by
  constructor
  · exact (changeset_selection
      { baseEnv with outgoing := [], revrange := fun _ => [] }).1 rfl
  · exact (changeset_selection baseEnv).2.1 (by decide)

/-- C7: the reconstructed canonical URL of any hierarchy entry, looked up
case-insensitively, succeeds and yields the `ixRepo` of the first
structurally matching entry of the traversal; a URL matching no entry fails
with the "no repository found" abort. -/
theorem repo_url_roundtrip (upref : String) (projects : List Project) :
    (∀ r ∈ flattenRepos projects,
      ∃ r', (flattenRepos projects).find?
          (fun x => lowerStr (canonicalUrl upref x) =
            lowerStr (canonicalUrl upref r)) = some r' ∧
        _get_repo_index_for_repo_url upref projects
          (some (canonicalUrl upref r)) = .ok r'.ixRepo) ∧
    (∀ u, (∀ r ∈ flattenRepos projects,
        lowerStr (canonicalUrl upref r) ≠ lowerStr u) →
      _get_repo_index_for_repo_url upref projects (some u) =
        .error (.abort ("No repository found matching " ++ u))) := by
  constructor
  · intro r hr
    have hiss : ((flattenRepos projects).find?
        (fun x => lowerStr (canonicalUrl upref x) =
          lowerStr (canonicalUrl upref r))).isSome := by
      rw [List.find?_isSome]
      exact ⟨r, hr, by simp⟩
    obtain ⟨r', hr'⟩ := Option.isSome_iff_exists.mp hiss
    exact ⟨r', hr', by simp [_get_repo_index_for_repo_url, hr']⟩
  · intro u hu
    have hnone : (flattenRepos projects).find?
        (fun x => lowerStr (canonicalUrl upref x) = lowerStr u) = none :=
      List.find?_eq_none.mpr (fun x hx => by simpa using hu x hx)
    simp [_get_repo_index_for_repo_url, hnone]

/-- C7 witness: `repo1`'s canonical URL round-trips through the lookup, and
an alien URL is rejected with the abort. -/
theorem repo_url_roundtrip_witness :
    (∃ r', (flattenRepos projects1).find?
        (fun x => lowerStr (canonicalUrl "http://kiln" x) =
          lowerStr (canonicalUrl "http://kiln" repo1)) = some r' ∧
      _get_repo_index_for_repo_url "http://kiln" projects1
        (some (canonicalUrl "http://kiln" repo1)) = .ok r'.ixRepo) ∧
    _get_repo_index_for_repo_url "http://kiln" projects1
        (some "http://other/code/a/b/c") =
      .error (.abort ("No repository found matching " ++
        "http://other/code/a/b/c")) := by
  constructor
  · exact (repo_url_roundtrip "http://kiln" projects1).1 repo1 (by decide)
  · exact (repo_url_roundtrip "http://kiln" projects1).2
      "http://other/code/a/b/c" (by decide)

/-- C8 counterexample: a bypass-mode push whose underlying push returns 0
makes the command exit 0, not the claimed 1 — the bypass passes the
underlying push's status through unchanged. -/
theorem exit_status_cex :
    optsNone.rr = ["none"] ∧
    Event.push [] optsNone ∈ (pushWithReview baseEnv [] optsNone).trace ∧
    ¬ (pushWithReview baseEnv [] optsNone).result = .ok 1 := by
  refine ⟨rfl, by decide, ?_⟩
  rw [show (pushWithReview baseEnv [] optsNone).result = .ok 0 from rfl]
  simp

/-- C8 (amended): the exit status is 1 exactly when a review was created
(the response is truthy and carries `ixReview`); a bypass-mode push exits
with whatever status the underlying push itself returns (not necessarily 1);
the failure paths the orchestrator reports as non-fatal — review creation
answered with a truthy response lacking `ixReview` after the push, and the
missing-configuration warning — exit 0; a falsy review response instead
fails `assert review_status` and the run dies with the `AssertionError`
rather than exiting 0. -/
theorem exit_status_amended (env : Env) (args : List String) (opts : Opts) :
    (∀ p resp ix,
      Event.reviewCreate p ∈ (pushWithReview env args opts).trace →
      env.reviewCall = .ok resp → resp.truthy = true →
      resp.ixReview = some ix →
      (pushWithReview env args opts).result = .ok 1) ∧
    (∀ c, opts.rr = ["none"] → env.pushResult = .ok c →
      (pushWithReview env args opts).result = .ok c) ∧
    (∀ p resp,
      Event.reviewCreate p ∈ (pushWithReview env args opts).trace →
      env.reviewCall = .ok resp → resp.truthy = true →
      resp.ixReview = none →
      (pushWithReview env args opts).result = .ok 0) ∧
    (opts.rr ≠ ["none"] → env.urlPref = none →
      (pushWithReview env args opts).result = .ok 0) ∧
    (∀ p resp,
      Event.reviewCreate p ∈ (pushWithReview env args opts).trace →
      env.reviewCall = .ok resp → resp.truthy = false →
      (pushWithReview env args opts).result =
        .error (.assertError "Kiln API is returning None??")) := by
  refine ⟨?_, ?_, ?_, ?_, ?_⟩
  · intro p resp ix hmem hcall ht hix
    rcases run_cases env args opts with ⟨_, hR⟩ | hR | hR | ⟨e, hR⟩ |
      ⟨e, hR⟩ | ⟨e, hR⟩ | ⟨e, hR⟩ |
      ⟨_, _, _, u, hu, t, hauth, cs, hsel, ppl, hppl, rs, hres, projs,
        hproj, ix', hlook, hR⟩
    · rw [hR] at hmem; simp at hmem
    · rw [hR] at hmem; simp at hmem
    · rw [hR] at hmem; simp at hmem
    · rw [hR] at hmem; simp at hmem
    · rw [hR] at hmem; simp at hmem
    · rw [hR] at hmem; simp at hmem
    · rw [hR] at hmem; simp at hmem
    · rw [hR] at hmem
      obtain ⟨-, c, hc⟩ := pushAndReview_reviewCreate env u args _ _ p
        (fun q => by simp) hmem
      rw [hR]
      exact pushAndReview_result_created env u args _ _ c resp ix hc
        hcall ht hix
  · intro c h hpc
    simp [pushWithReview, h, hpc, pushOutcome]
  · intro p resp hmem hcall ht hix
    rcases run_cases env args opts with ⟨_, hR⟩ | hR | hR | ⟨e, hR⟩ |
      ⟨e, hR⟩ | ⟨e, hR⟩ | ⟨e, hR⟩ |
      ⟨_, _, _, u, hu, t, hauth, cs, hsel, ppl, hppl, rs, hres, projs,
        hproj, ix', hlook, hR⟩
    · rw [hR] at hmem; simp at hmem
    · rw [hR] at hmem; simp at hmem
    · rw [hR] at hmem; simp at hmem
    · rw [hR] at hmem; simp at hmem
    · rw [hR] at hmem; simp at hmem
    · rw [hR] at hmem; simp at hmem
    · rw [hR] at hmem; simp at hmem
    · rw [hR] at hmem
      obtain ⟨-, c, hc⟩ := pushAndReview_reviewCreate env u args _ _ p
        (fun q => by simp) hmem
      rw [hR]
      exact (pushAndReview_result_failed env u args _ _ c resp hc
        hcall ht hix).1
  · intro h hnone
    simp [pushWithReview, h, hnone]
  · intro p resp hmem hcall ht
    rcases run_cases env args opts with ⟨_, hR⟩ | hR | hR | ⟨e, hR⟩ |
      ⟨e, hR⟩ | ⟨e, hR⟩ | ⟨e, hR⟩ |
      ⟨_, _, _, u, hu, t, hauth, cs, hsel, ppl, hppl, rs, hres, projs,
        hproj, ix', hlook, hR⟩
    · rw [hR] at hmem; simp at hmem
    · rw [hR] at hmem; simp at hmem
    · rw [hR] at hmem; simp at hmem
    · rw [hR] at hmem; simp at hmem
    · rw [hR] at hmem; simp at hmem
    · rw [hR] at hmem; simp at hmem
    · rw [hR] at hmem; simp at hmem
    · rw [hR] at hmem
      obtain ⟨-, c, hc⟩ := pushAndReview_reviewCreate env u args _ _ p
        (fun q => by simp) hmem
      rw [hR]
      exact (pushAndReview_result_assert env u args _ _ c resp hc
        hcall ht).1

/-- C8 witness: a created review exits 1; a bypass push propagating the
underlying status 0 exits 0. -/
theorem exit_status_amended_witness :
    (pushWithReview baseEnv [] optsTom).result = .ok 1 ∧
    (pushWithReview baseEnv [] optsNone).result = .ok 0 := by
  constructor
  · exact (exit_status_amended baseEnv [] optsTom).1
      ⟨"tok", none, none, ["abcdef012345"], [1], 7⟩ ⟨some 42, "resp", true⟩
      42 (by decide) rfl rfl rfl
  · exact (exit_status_amended baseEnv [] optsNone).2.1 0 rfl rfl

/-- C9: when no destination resolves — any explicit argument matches no
configured alias, and neither `default-push` nor `default` is configured —
the destination step yields `None`; the orchestrator passes it unguarded to
repository-id lookup, which on any non-empty hierarchy evaluates
`None.lower()` and dies with the unhandled `AttributeError` instead of the
specified "no repository found" abort, before any push. -/
theorem unresolved_destination_crashes (env : Env) (args : List String)
    (opts : Opts)
    (hrr : opts.rr ≠ ["none"]) (hlen : args.length ≤ 1) (hrr0 : opts.rr ≠ [])
    (u : String) (hu : env.urlPref = some u)
    (t : String) (hauth : env.authResult = .ok t)
    (cs : List String)
    (hsel : selectChangesets env.revrange env.outgoing opts.rrev = .ok cs)
    (ppl : List Person) (hppl : env.people = .ok ppl)
    (rs : List Person)
    (hres : _get_reviewers env.chooser ppl opts.rr = .ok rs)
    (projs : List Project) (hproj : env.projects = .ok projs)
    (hflat : flattenRepos projs ≠ [])
    (hdp : dictGet (loweredItems env.pathItems) "default-push" = none)
    (hd : dictGet (loweredItems env.pathItems) "default" = none)
    (hexp : ∀ d, args.head? = some d → d ≠ "" →
      dictGet (loweredItems env.pathItems) (lowerStr d) = none) :
    _get_repo_to_push_to env.pathItems args.head? = none ∧
    (pushWithReview env args opts).result = .error (.attrError noneLowerMsg) ∧
    ∀ a o, Event.push a o ∉ (pushWithReview env args opts).trace := by
  have hdest : _get_repo_to_push_to env.pathItems args.head? = none := by
    unfold _get_repo_to_push_to
    cases hh : args.head? with
    | none => simp [defaultLookup, hdp, hd]
    | some d =>
      by_cases hde : d = ""
      · simp [hde, defaultLookup, hdp, hd]
      · simp [hde, hexp d hh hde]
  have hlook : _get_repo_index_for_repo_url u projs
      (_get_repo_to_push_to env.pathItems args.head?) =
      .error (.attrError noneLowerMsg) := by
    rw [hdest]
    unfold _get_repo_index_for_repo_url
    cases hf : flattenRepos projs with
    | nil => exact absurd hf hflat
    | cons a l => simp
  refine ⟨hdest, ?_, ?_⟩
  · simp [pushWithReview, hrr, hu, hauth, hsel, hrr0, hppl, hres, hproj,
      hlook, show ¬ args.length > 1 by omega]
  · intro a o hmem
    rcases run_cases env args opts with ⟨hrr', _⟩ | hR | hR | ⟨e, hR⟩ |
      ⟨e, hR⟩ | ⟨e, hR⟩ | ⟨e, hR⟩ |
      ⟨_, _, _, u', hu', t', hauth', cs', hsel', ppl', hppl', rs', hres',
        projs', hproj', ix, hlook', hR⟩
    · exact hrr hrr'
    · rw [hR] at hmem; simp at hmem
    · rw [hR] at hmem; simp at hmem
    · rw [hR] at hmem; simp at hmem
    · rw [hR] at hmem; simp at hmem
    · rw [hR] at hmem; simp at hmem
    · rw [hR] at hmem; simp at hmem
    · obtain rfl : u' = u := by
        rw [hu] at hu'
        exact (Option.some.inj hu').symm
      obtain rfl : projs' = projs := by
        rw [hproj] at hproj'
        exact (Except.ok.inj hproj').symm
      rw [hlook] at hlook'
      cases hlook'

/-- C9 witness: no path aliases configured, no destination argument, a
one-repository hierarchy — the run dies with the `AttributeError`. -/
theorem unresolved_destination_crashes_witness :
    _get_repo_to_push_to ([] : List (String × String))
      (([] : List String).head?) = none ∧
    (pushWithReview { baseEnv with pathItems := [] } [] optsTom).result =
      .error (.attrError noneLowerMsg) := by
  have h := unresolved_destination_crashes { baseEnv with pathItems := [] }
    [] optsTom (by decide) (by decide) (by decide) "http://kiln" rfl
    "tok" rfl ["abcdef012345"] rfl peopleABC rfl [tomA] rfl projects1 rfl
    (by decide) rfl rfl (fun d hd _ => by cases hd)
  exact ⟨h.1, h.2.1⟩

/-- C10: the bypass — the run being exactly a leading push with the original
options — is taken iff the reviewer option list is exactly `["none"]`; and a
literal `"none"` entry appearing in any reviewer list (alongside others, or
on the review path after a case change) is normalized like any ordinary
token. -/
theorem bypass_only_on_exact_sentinel (env : Env) (args : List String)
    (opts : Opts) :
    ((pushWithReview env args opts).trace.head? = some (.push args opts) ↔
      opts.rr = ["none"]) ∧
    (∀ reviewers, "none" ∈ reviewers → "none" ∈ normalizeTokens reviewers) := by
  constructor
  · constructor
    · intro h
      by_contra hrr
      rcases run_cases env args opts with ⟨hrr', _⟩ | hR | hR | ⟨e, hR⟩ |
        ⟨e, hR⟩ | ⟨e, hR⟩ | ⟨e, hR⟩ |
        ⟨_, _, _, u, hu, t, hauth, cs, hsel, ppl, hppl, rs, hres, projs,
          hproj, ix, hlook, hR⟩
      · exact hrr hrr'
      · rw [hR] at h; simp at h
      · rw [hR] at h; simp at h
      · rw [hR] at h; simp at h
      · rw [hR] at h; simp at h
      · rw [hR] at h; simp at h
      · rw [hR] at h; simp at h
      · rcases pushAndReview_trace env u args
            ([.authLogin] ++ selEvents opts.rrev ++
              [.fetchPersons, .fetchProjects]) _ with htr | htr <;>
          rw [hR, htr] at h <;> simp at h
    · intro h
      simp [pushWithReview, h]
  · intro reviewers hmem
    unfold normalizeTokens
    rw [List.mem_dedup]
    refine List.mem_flatMap.mpr ⟨"none", hmem, ?_⟩
    decide

/-- C10 witness: `["None"]` (wrong case) does not bypass, while a `"none"`
entry in `["tom", "none"]` survives normalization as an ordinary token. -/
theorem bypass_only_on_exact_sentinel_witness :
    ¬ (pushWithReview baseEnv []
        (⟨["None"], [], "", "", false, none⟩ : Opts)).trace.head? =
      some (.push [] (⟨["None"], [], "", "", false, none⟩ : Opts)) ∧
    "none" ∈ normalizeTokens ["tom", "none"] := by
  constructor
  · intro h
    exact absurd ((bypass_only_on_exact_sentinel baseEnv []
      ⟨["None"], [], "", "", false, none⟩).1.mp h) (by decide)
  · exact (bypass_only_on_exact_sentinel baseEnv [] optsTom).2
      ["tom", "none"] (by decide)

end KilnReview
